import Mathlib

/-!
Verification of the Mandelbrot deep-zoom renderer's core numerics.

The source is JavaScript (host side) plus a GLSL fragment shader embedded in
`src/ui/ControlPanel.js`.  Floating-point values are modelled as exact
rationals (`ℚ`): every arithmetic step of the source is transcribed
operation-for-operation, with transcendental primitives (`sqrt`, `atan2`,
`pow`, `cos`, `sin`, `log`) abstracted as a parameter record, since the code
only ever pipes their results onward.  Under this model each basic operation
is exact, which is the most favourable reading of the code's numeric claims:
identities that fail here fail for structural (algebraic) reasons, not
because of rounding.
-/

/-- Abstract transcendental primitives used by `complexPower`,
`smoothIteration` and the shader loops (the code calls `Math.sqrt`,
`Math.atan2`, `Math.pow`, `Math.cos`, `Math.sin`, `Math.log` / GLSL
equivalents; the model passes them in as plain functions on `ℚ`). -/
structure TransPrims where
  sqrtQ : ℚ → ℚ
  atan2Q : ℚ → ℚ → ℚ
  powQ : ℚ → ℚ → ℚ
  cosQ : ℚ → ℚ
  sinQ : ℚ → ℚ
  logQ : ℚ → ℚ

/-- Trivial instantiation of the transcendental primitives (all zero);
used to evaluate code paths that never consult them. -/
def tpZero : TransPrims :=
  ⟨fun _ => 0, fun _ _ => 0, fun _ _ => 0, fun _ => 0, fun _ => 0, fun _ => 0⟩

/-- Identity-flavoured instantiation of the transcendental primitives,
used for concrete evaluation of formulas that mention `log`. -/
def tpId : TransPrims :=
  ⟨id, fun _ _ => 0, fun a _ => a, id, id, fun x => x⟩

/-! ## Double-double arithmetic kernel (shader, `ControlPanel.js` 1170–1238) -/

/-- `twoSum` from the fragment shader:
`s = a + b; v = s - a; e = (a - (s - v)) + (b - v); return vec2(s, e)`. -/
def twoSum (a b : ℚ) : ℚ × ℚ :=
  let s := a + b
  let v := s - a
  let e := (a - (s - v)) + (b - v)
  (s, e)

/-- `twoProd` from the fragment shader: split each operand at `4097 = 2^12+1`
and recombine the four partial products. -/
def twoProd (a b : ℚ) : ℚ × ℚ :=
  let p := a * b
  let splitA := a * 4097
  let aHi := splitA - (splitA - a)
  let aLo := a - aHi
  let splitB := b * 4097
  let bHi := splitB - (splitB - b)
  let bLo := b - bHi
  let e := ((aHi * bHi - p) + aHi * bLo + aLo * bHi) + aLo * bLo
  (p, e)

/-- `ddAdd` from the fragment shader: two-sum the high parts and the low
parts, then renormalize twice. -/
def ddAdd (a b : ℚ × ℚ) : ℚ × ℚ :=
  let s := twoSum a.1 b.1
  let t := twoSum a.2 b.2
  let s1 : ℚ × ℚ := (s.1, s.2 + t.1)
  let s2 := twoSum s1.1 s1.2
  let s3 : ℚ × ℚ := (s2.1, s2.2 + t.2)
  twoSum s3.1 s3.2

/-- `ddMul` from the fragment shader: two-product of the highs, cross terms
`a.hi*b.lo + a.lo*b.hi` folded into the low component, one final two-sum.
(The `a.lo*b.lo` term is not added anywhere.) -/
def ddMul (a b : ℚ × ℚ) : ℚ × ℚ :=
  let p := twoProd a.1 b.1
  let p1 : ℚ × ℚ := (p.1, p.2 + (a.1 * b.2 + a.2 * b.1))
  twoSum p1.1 p1.2

/-- `ddSub` from the fragment shader. -/
def ddSub (a b : ℚ × ℚ) : ℚ × ℚ :=
  ddAdd a (-b.1, -b.2)

/-- `ddFromFloat` from the fragment shader. -/
def ddFromFloat (a : ℚ) : ℚ × ℚ := (a, 0)

/-- `ddComplexSquare` from the fragment shader:
`z^2 = (zx^2 - zy^2) + i*(2*zx*zy)` built from `ddMul`/`ddSub`/`ddAdd`. -/
def ddComplexSquare (zx zy : ℚ × ℚ) : (ℚ × ℚ) × (ℚ × ℚ) :=
  let zx2 := ddMul zx zx
  let zy2 := ddMul zy zy
  let zxzy := ddMul zx zy
  (ddSub zx2 zy2, ddAdd zxzy zxzy)

/-! ## Host-side coordinate splitting and uniform marshalling (`updateUniforms`) -/

/-- `splitDouble` from `updateUniforms`:
`hi = value; lo = value - hi; return [hi, lo]` — both computed at host
precision. -/
def splitDouble (value : ℚ) : ℚ × ℚ :=
  let hi := value
  let lo := value - hi
  (hi, lo)

/-- Host-side derived uniform from `updateUniforms`:
`useDoublePrecision = state.zoom > 1e6 ? 1.0 : 0.0`. -/
def useDoublePrecisionUniform (zoom : ℚ) : ℚ :=
  if zoom > 1000000 then 1 else 0

/-- How `updateUniforms` encodes a boolean state flag as a float uniform
(`state.burningShip ? 1.0 : 0.0`, same for `juliaMode`). -/
def boolUniform (b : Bool) : ℚ :=
  if b then 1 else 0

/-- The fragment shader's branch condition choosing the double-double path:
`u_useDoublePrecision > 0.5 && abs(u_power - 2.0) < 0.01 &&
u_juliaMode < 0.5 && u_burningShip < 0.5`. -/
def shaderSelectsDD (udp power julia burn : ℚ) : Bool :=
  decide (udp > 1/2) && decide (|power - 2| < 1/100) &&
    decide (julia < 1/2) && decide (burn < 1/2)

/-- End-to-end path selection: host computes the `u_useDoublePrecision`
uniform from the zoom, the shader tests it together with power and the
variant flags. -/
def selectExtended (zoom power : ℚ) (julia burn : Bool) : Bool :=
  shaderSelectsDD (useDoublePrecisionUniform zoom) power
    (boolUniform julia) (boolUniform burn)

/-! ## State validation (`FractalState._validateChanges`) -/

/-- The `colorScheme` clamp in `_validateChanges`:
`Math.max(0, Math.min(7, Math.floor(v)))`. -/
def validateColorScheme (v : ℚ) : ℚ :=
  max 0 (min 7 (⌊v⌋ : ℚ))

/-- The `maxIter` clamp in `_validateChanges`:
`Math.max(10, Math.min(10000, Math.floor(v)))`. -/
def validateMaxIter (v : ℚ) : ℚ :=
  max 10 (min 10000 (⌊v⌋ : ℚ))

/-! ## Theorems for claims C1–C4, C9 -/

/-- C2: for all operands `a`, `b`, the `twoSum` result pair sums back to
`a + b` exactly — in the exact-arithmetic model the error branch recovers
precisely the (here zero) rounding of the leading sum, so `hi + lo = a + b`
is an identity of the transcribed expression. -/
theorem twoSum_exact_sum (a b : ℚ) :
    (twoSum a b).1 + (twoSum a b).2 = a + b := by
  simp only [twoSum]
  ring

/-- C1 counterexample: on the normalized double-double operand
`A = (1, 2^-30)` (which satisfies `|lo| ≤ ulp(hi)/2` for the shader's
binary32 working precision), `ddMul A A` sums to `1 + 2^-29`, while the
exact product `(1 + 2^-30)^2 = 1 + 2^-29 + 2^-60` differs by the dropped
`A.lo * B.lo` term, so the exactness claim fails even with every basic
operation computed exactly. -/
theorem ddMul_not_exact_on_normalized_input :
    (ddMul (1, 1/2^30) (1, 1/2^30)).1 + (ddMul (1, 1/2^30) (1, 1/2^30)).2 ≠
      ((1 : ℚ) + 1/2^30) * (1 + 1/2^30) := by
  norm_num [ddMul, twoProd, twoSum]

/-- C1 amended: in the exact-arithmetic model, `ddAdd` preserves the operand
sums exactly, while `ddMul` produces exactly the true product minus the
`A.lo * B.lo` term it never computes. -/
theorem ddAdd_ddMul_sum_characterization (a b : ℚ × ℚ) :
    (ddAdd a b).1 + (ddAdd a b).2 = (a.1 + a.2) + (b.1 + b.2) ∧
      (ddMul a b).1 + (ddMul a b).2 = (a.1 + a.2) * (b.1 + b.2) - a.2 * b.2 := by
  constructor
  · simp only [ddAdd, twoSum]
    ring
  · simp only [ddMul, twoProd, twoSum]
    ring

/-- C3: `splitDouble` subtracts the untruncated value from itself, so the
"residual" low part is identically zero: the pair `(hi, lo)` returned for
the failing input `centerX = 1/10` is `(1/10, 0)`, carrying no extra
precision beyond `hi` alone (the float32 truncation of `0.1` on upload is
inexact, so the true residual is nonzero). -/
theorem splitDouble_residual_zero (v : ℚ) :
    splitDouble v = (v, 0) := by
  simp [splitDouble]

/-- C4 counterexample: at zoom `2·10^6` and power `2.005` (within the
allowed range `[1, 12]`, but not equal to 2), with Julia mode and Burning
Ship off, the code selects the extended-precision path even though the
claim requires the native path for every `power ≠ 2`. -/
theorem selectExtended_power_tolerance_cex :
    selectExtended 2000000 (401/200) false false = true ∧
      (401/200 : ℚ) ≠ 2 := by
  constructor
  · norm_num [selectExtended, shaderSelectsDD, useDoublePrecisionUniform,
      boolUniform, abs_lt]
  · norm_num

/-- C4 amended: the extended-precision path is selected iff
`zoom > 10^6 ∧ |power − 2| < 0.01 ∧ ¬julia ∧ ¬burningShip` (the shader
tests power within a tolerance of `0.01`, not strict equality), and the
branch is deterministic at the boundary: for any `ε > 0`, zoom `10^6 − ε`
(power exactly 2, flags off) selects the native path and `10^6 + ε` the
extended path. -/
theorem selectExtended_characterization (zoom power : ℚ) (julia burn : Bool)
    (ε : ℚ) (hε : 0 < ε) :
    (selectExtended zoom power julia burn = true ↔
      (1000000 < zoom ∧ |power - 2| < 1/100 ∧ julia = false ∧ burn = false)) ∧
      selectExtended (1000000 - ε) 2 false false = false ∧
      selectExtended (1000000 + ε) 2 false false = true := by
  refine ⟨?_, ?_, ?_⟩
  · simp only [selectExtended, shaderSelectsDD, useDoublePrecisionUniform,
      boolUniform, Bool.and_eq_true, decide_eq_true_eq]
    constructor
    · rintro ⟨⟨⟨h1, h2⟩, h3⟩, h4⟩
      refine ⟨?_, h2, ?_, ?_⟩
      · by_contra hz
        push_neg at hz
        rw [if_neg (by exact not_lt.mpr hz)] at h1
        norm_num at h1
      · cases julia with
        | false => rfl
        | true => simp at h3; norm_num at h3
      · cases burn with
        | false => rfl
        | true => simp at h4; norm_num at h4
    · rintro ⟨h1, h2, h3, h4⟩
      subst h3; subst h4
      rw [if_pos h1]
      refine ⟨⟨⟨by norm_num, h2⟩, by norm_num⟩, by norm_num⟩
  · have h : ¬((1000000 : ℚ) - ε > 1000000) := by linarith
    simp only [selectExtended, shaderSelectsDD, useDoublePrecisionUniform,
      boolUniform, if_neg h]
    norm_num
  · have h : (1000000 : ℚ) + ε > 1000000 := by linarith
    simp only [selectExtended, shaderSelectsDD, useDoublePrecisionUniform,
      boolUniform, if_pos h]
    norm_num

/-- C4 witness: the characterization instantiated at zoom `2·10^6`,
power `2`, flags off, boundary offset `ε = 1`. -/
theorem selectExtended_characterization_witness :
    (0 : ℚ) < 1 ∧
      ((selectExtended 2000000 2 false false = true ↔
        (1000000 < (2000000 : ℚ) ∧ |(2 : ℚ) - 2| < 1/100 ∧
          false = false ∧ false = false)) ∧
        selectExtended (1000000 - 1) 2 false false = false ∧
        selectExtended (1000000 + 1) 2 false false = true) :=
  ⟨by norm_num, selectExtended_characterization 2000000 2 false false 1 (by norm_num)⟩

/-- C9: the state layer clamps `colorScheme` to at most 7
(`Math.max(0, Math.min(7, Math.floor(v)))`), so the shader's scheme ids 8
and 19 are stored as 7 rather than unchanged — schemes 8–19 are not
selectable through the validated state interface. -/
theorem validateColorScheme_clamps_to_seven :
    validateColorScheme 19 = 7 ∧ validateColorScheme 8 = 7 ∧
      validateColorScheme 7 = 7 := by
  refine ⟨?_, ?_, ?_⟩ <;> norm_num [validateColorScheme]


/-! ## ComplexMath (pure host-side math module) -/

/-- `complexAdd` from ComplexMath. -/
def complexAdd (a b : ℚ × ℚ) : ℚ × ℚ :=
  (a.1 + b.1, a.2 + b.2)

/-- `magnitudeSquared` from ComplexMath: `z[0]*z[0] + z[1]*z[1]`. -/
def magnitudeSquared (z : ℚ × ℚ) : ℚ :=
  z.1 * z.1 + z.2 * z.2

/-- `complexPower` from ComplexMath: quadratic fast path when
`|n - 2| < 0.01`, otherwise the polar form through the transcendental
primitives, with a zero-radius guard. -/
def complexPower (tp : TransPrims) (z : ℚ × ℚ) (n : ℚ) : ℚ × ℚ :=
  if |n - 2| < 1/100 then
    (z.1 * z.1 - z.2 * z.2, 2 * z.1 * z.2)
  else
    let r := tp.sqrtQ (z.1 * z.1 + z.2 * z.2)
    if r = 0 then (0, 0)
    else
      let theta := tp.atan2Q z.2 z.1
      let newR := tp.powQ r n
      let newTheta := n * theta
      (newR * tp.cosQ newTheta, newR * tp.sinQ newTheta)

/-- One body of the `mandelbrotIteration` loop: optional Burning-Ship
absolute values, then `z = complexPower(z, power) + constant`. -/
def mandelStep (tp : TransPrims) (konst : ℚ × ℚ) (power : ℚ)
    (burn : Bool) (z : ℚ × ℚ) : ℚ × ℚ :=
  let z1 := if burn then (|z.1|, |z.2|) else z
  complexAdd (complexPower tp z1 power) konst

/-- The `mandelbrotIteration` loop, fuelled by the remaining iteration
count: returns the loop index `i` on escape (`|z|² > 4`), otherwise falls
through to the running index (which reaches `maxIter`). -/
def mandelLoop (tp : TransPrims) (konst : ℚ × ℚ) (power : ℚ)
    (burn : Bool) : ℚ × ℚ → ℕ → ℕ → ℕ
  | _, i, 0 => i
  | z, i, r + 1 =>
    let z1 := mandelStep tp konst power burn z
    if 4 < magnitudeSquared z1 then i
    else mandelLoop tp konst power burn z1 (i + 1) r

/-- `mandelbrotIteration` from ComplexMath: Julia mode starts `z` at `c`
and iterates with the Julia constant; otherwise `z` starts at 0 and `c`
itself is the constant. -/
def mandelbrotIteration (tp : TransPrims) (c : ℚ × ℚ) (maxIter : ℕ)
    (power : ℚ) (burn julia : Bool) (juliaC : ℚ × ℚ) : ℕ :=
  let z0 := if julia then c else (0, 0)
  let konst := if julia then juliaC else c
  mandelLoop tp konst power burn z0 0 maxIter

/-- The orbit of `smoothIteration` (and of `mandelbrotIteration` with both
variant flags off): `z_0 = 0`, `z_{n+1} = complexPower(z_n, power) + c`. -/
def mandelOrbit (tp : TransPrims) (c : ℚ × ℚ) (power : ℚ) : ℕ → ℚ × ℚ
  | 0 => (0, 0)
  | n + 1 => complexAdd (complexPower tp (mandelOrbit tp c power n) power) c

/-- The orbit of the `mandelbrotIteration` loop, including the optional
Burning-Ship absolute-value step. -/
def mandelOrbitB (tp : TransPrims) (konst : ℚ × ℚ) (power : ℚ)
    (burn : Bool) (z0 : ℚ × ℚ) : ℕ → ℚ × ℚ
  | 0 => z0
  | n + 1 => mandelStep tp konst power burn (mandelOrbitB tp konst power burn z0 n)

/-- The smoothed escape value returned by `smoothIteration` when the test
`magSq > 256` fires at loop index `i`:
`i + 1 - log(log(magSq)/2 / log(power)) / log(power)`. -/
def smoothValue (tp : TransPrims) (power : ℚ) (i : ℕ) (magSq : ℚ) : ℚ :=
  (i : ℚ) + 1 - tp.logQ (tp.logQ magSq / 2 / tp.logQ power) / tp.logQ power

/-- The `smoothIteration` loop, fuelled by the remaining iteration count;
falls through to the running index (which reaches `maxIter`) when the fuel
runs out, matching the JS `return maxIter`. -/
def smoothLoop (tp : TransPrims) (c : ℚ × ℚ) (power : ℚ) :
    ℚ × ℚ → ℕ → ℕ → ℚ
  | _, i, 0 => (i : ℚ)
  | z, i, r + 1 =>
    let z1 := complexAdd (complexPower tp z power) c
    let magSq := magnitudeSquared z1
    if 256 < magSq then smoothValue tp power i magSq
    else smoothLoop tp c power z1 (i + 1) r

/-- `smoothIteration` from ComplexMath. -/
def smoothIteration (tp : TransPrims) (c : ℚ × ℚ) (maxIter : ℕ)
    (power : ℚ) : ℚ :=
  smoothLoop tp c power (0, 0) 0 maxIter

/-! ## Theorems for claims C5, C7, C8 -/

/-- The `smoothLoop` starting at index `k` with the orbit value `z_k`
returns the smoothed value of the first escape index `i`, provided no
index in `[k, i)` escapes and the fuel reaches `i`. -/
theorem smoothLoop_first_escape (tp : TransPrims) (c : ℚ × ℚ) (power : ℚ)
    (i : ℕ) (hesc : 256 < magnitudeSquared (mandelOrbit tp c power (i + 1))) :
    ∀ r k, k ≤ i → i < k + r →
      (∀ j, k ≤ j → j < i → magnitudeSquared (mandelOrbit tp c power (j + 1)) ≤ 256) →
      smoothLoop tp c power (mandelOrbit tp c power k) k r =
        smoothValue tp power i (magnitudeSquared (mandelOrbit tp c power (i + 1))) := by
  intro r
  induction r with
  | zero =>
    intro k hk hlt _
    omega
  | succ r ih =>
    intro k hk hlt hbefore
    have horb : complexAdd (complexPower tp (mandelOrbit tp c power k) power) c =
        mandelOrbit tp c power (k + 1) := rfl
    rcases eq_or_lt_of_le hk with heq | hklt
    · subst heq
      simp only [smoothLoop, horb]
      rw [if_pos hesc]
    · have hstep : ¬(256 < magnitudeSquared (mandelOrbit tp c power (k + 1))) :=
        not_lt.mpr (hbefore k le_rfl hklt)
      simp only [smoothLoop, horb]
      rw [if_neg hstep]
      exact ih (k + 1) (by omega) (by omega) (fun j hj hji => hbefore j (by omega) hji)

/-- Host-side helper: whenever the escape test `|z|² > 256` first succeeds
at iteration `i` below the cap, `smoothIteration` returns
`i + 1 - log(log(|z|²)/2 / log(power)) / log(power)` — both divisors are
`log(power)` in the ComplexMath module (the shader's native path differs;
see the C5 theorems). -/
theorem smoothIteration_first_escape (tp : TransPrims) (c : ℚ × ℚ)
    (maxIter i : ℕ) (power : ℚ)
    (hi : i < maxIter)
    (hesc : 256 < magnitudeSquared (mandelOrbit tp c power (i + 1)))
    (hbefore : ∀ j, j < i → magnitudeSquared (mandelOrbit tp c power (j + 1)) ≤ 256) :
    smoothIteration tp c maxIter power =
      (i : ℚ) + 1 -
        tp.logQ (tp.logQ (magnitudeSquared (mandelOrbit tp c power (i + 1))) / 2 /
          tp.logQ power) / tp.logQ power := by
  have h0 : smoothIteration tp c maxIter power =
      smoothLoop tp c power (mandelOrbit tp c power 0) 0 maxIter := rfl
  rw [h0, smoothLoop_first_escape tp c power i hesc maxIter 0 (by omega)
    (by omega) (fun j _ hji => hbefore j hji)]
  simp [smoothValue]

/-- With constant `(0, 0)`, power 2 and no Burning-Ship step, the loop
value stays at the origin and the loop runs through all its fuel. -/
theorem mandelLoop_origin (tp : TransPrims) :
    ∀ r i, mandelLoop tp (0, 0) 2 false (0, 0) i r = i + r := by
  intro r
  induction r with
  | zero => intro i; rfl
  | succ r ih =>
    intro i
    have hz : mandelStep tp (0, 0) 2 false (0, 0) = (0, 0) := by
      norm_num [mandelStep, complexPower, complexAdd]
    simp only [mandelLoop, hz]
    rw [if_neg (by norm_num [magnitudeSquared])]
    rw [ih]
    omega

/-- C7: for `c = (0, 0)` (inside the main cardioid) with power 2 and the
default flags, the iteration never escapes: the orbit stays at the origin
(so `|z|² ≤ 4` at every step) and `mandelbrotIteration` returns
`maxIterations`, for every cap `≥ 1`. -/
theorem mandelbrot_origin_never_escapes (tp : TransPrims) (maxIter : ℕ)
    (h : 1 ≤ maxIter) :
    mandelbrotIteration tp (0, 0) maxIter 2 false false (0, 0) = maxIter ∧
      ∀ n, magnitudeSquared (mandelOrbit tp (0, 0) 2 n) ≤ 4 := by
  constructor
  · simpa [mandelbrotIteration] using mandelLoop_origin tp maxIter 0
  · intro n
    have horbit : mandelOrbit tp (0, 0) 2 n = (0, 0) := by
      induction n with
      | zero => rfl
      | succ n ih =>
        rw [mandelOrbit, ih]
        norm_num [complexPower, complexAdd]
    rw [horbit]
    norm_num [magnitudeSquared]

/-- C7 witness: the theorem applied at `maxIterations = 3`. -/
theorem mandelbrot_origin_never_escapes_witness :
    1 ≤ 3 ∧
      (mandelbrotIteration tpZero (0, 0) 3 2 false false (0, 0) = 3 ∧
        ∀ n, magnitudeSquared (mandelOrbit tpZero (0, 0) 2 n) ≤ 4) :=
  ⟨by norm_num, mandelbrot_origin_never_escapes tpZero 3 (by norm_num)⟩

/-- The `mandelLoop` starting at index `k` with the orbit value `z_k`
returns the first escape index `i`, provided no index in `[k, i)` escapes
and the fuel reaches `i`. -/
theorem mandelLoop_first_escape (tp : TransPrims) (konst : ℚ × ℚ)
    (power : ℚ) (burn : Bool) (z0 : ℚ × ℚ) (i : ℕ)
    (hesc : 4 < magnitudeSquared (mandelOrbitB tp konst power burn z0 (i + 1))) :
    ∀ r k, k ≤ i → i < k + r →
      (∀ j, k ≤ j → j < i →
        magnitudeSquared (mandelOrbitB tp konst power burn z0 (j + 1)) ≤ 4) →
      mandelLoop tp konst power burn (mandelOrbitB tp konst power burn z0 k) k r = i := by
  intro r
  induction r with
  | zero =>
    intro k hk hlt _
    omega
  | succ r ih =>
    intro k hk hlt hbefore
    have horb : mandelStep tp konst power burn (mandelOrbitB tp konst power burn z0 k) =
        mandelOrbitB tp konst power burn z0 (k + 1) := rfl
    rcases eq_or_lt_of_le hk with heq | hklt
    · subst heq
      simp only [mandelLoop, horb]
      rw [if_pos hesc]
    · have hstep : ¬(4 < magnitudeSquared (mandelOrbitB tp konst power burn z0 (k + 1))) :=
        not_lt.mpr (hbefore k le_rfl hklt)
      simp only [mandelLoop, horb]
      rw [if_neg hstep]
      exact ih (k + 1) (by omega) (by omega) (fun j hj hji => hbefore j (by omega) hji)

/-- C8: at the fixture point `c = (0.5, 0.5)`, power 2, cap 100, the
Burning-Ship iteration escapes at count 3 while the standard iteration
escapes at count 4 — the absolute-value step changes the escape count. -/
theorem burningShip_changes_escape_count :
    mandelbrotIteration tpZero (1/2, 1/2) 100 2 true false (0, 0) = 3 ∧
      mandelbrotIteration tpZero (1/2, 1/2) 100 2 false false (0, 0) = 4 ∧
      mandelbrotIteration tpZero (1/2, 1/2) 100 2 true false (0, 0) ≠
        mandelbrotIteration tpZero (1/2, 1/2) 100 2 false false (0, 0) := by
  have b4 : mandelOrbitB tpZero (1/2, 1/2) 2 true (0, 0) 4 = (-27/16, 5/4) := by
    norm_num [mandelOrbitB, mandelStep, complexPower, complexAdd,
      abs_of_nonneg, abs_of_nonpos]
  have b1 : mandelOrbitB tpZero (1/2, 1/2) 2 true (0, 0) 1 = (1/2, 1/2) := by
    norm_num [mandelOrbitB, mandelStep, complexPower, complexAdd,
      abs_of_nonneg, abs_of_nonpos]
  have b2 : mandelOrbitB tpZero (1/2, 1/2) 2 true (0, 0) 2 = (1/2, 1) := by
    norm_num [mandelOrbitB, mandelStep, complexPower, complexAdd,
      abs_of_nonneg, abs_of_nonpos]
  have b3 : mandelOrbitB tpZero (1/2, 1/2) 2 true (0, 0) 3 = (-1/4, 3/2) := by
    norm_num [mandelOrbitB, mandelStep, complexPower, complexAdd,
      abs_of_nonneg, abs_of_nonpos]
  have s1 : mandelOrbitB tpZero (1/2, 1/2) 2 false (0, 0) 1 = (1/2, 1/2) := by
    norm_num [mandelOrbitB, mandelStep, complexPower, complexAdd]
  have s2 : mandelOrbitB tpZero (1/2, 1/2) 2 false (0, 0) 2 = (1/2, 1) := by
    norm_num [mandelOrbitB, mandelStep, complexPower, complexAdd]
  have s3 : mandelOrbitB tpZero (1/2, 1/2) 2 false (0, 0) 3 = (-1/4, 3/2) := by
    norm_num [mandelOrbitB, mandelStep, complexPower, complexAdd]
  have s4 : mandelOrbitB tpZero (1/2, 1/2) 2 false (0, 0) 4 = (-27/16, -1/4) := by
    norm_num [mandelOrbitB, mandelStep, complexPower, complexAdd]
  have s5 : mandelOrbitB tpZero (1/2, 1/2) 2 false (0, 0) 5 = (841/256, 43/32) := by
    norm_num [mandelOrbitB, mandelStep, complexPower, complexAdd]
  have hbe : 4 < magnitudeSquared (mandelOrbitB tpZero (1/2, 1/2) 2 true (0, 0) (3 + 1)) := by
    rw [show (3 + 1 : ℕ) = 4 from rfl, b4]; norm_num [magnitudeSquared]
  have hse : 4 < magnitudeSquared (mandelOrbitB tpZero (1/2, 1/2) 2 false (0, 0) (4 + 1)) := by
    rw [show (4 + 1 : ℕ) = 5 from rfl, s5]; norm_num [magnitudeSquared]
  have hbb : ∀ j, 0 ≤ j → j < 3 →
      magnitudeSquared (mandelOrbitB tpZero (1/2, 1/2) 2 true (0, 0) (j + 1)) ≤ 4 := by
    intro j _ hj
    interval_cases j
    · rw [show (0 + 1 : ℕ) = 1 from rfl, b1]; norm_num [magnitudeSquared]
    · rw [show (1 + 1 : ℕ) = 2 from rfl, b2]; norm_num [magnitudeSquared]
    · rw [show (2 + 1 : ℕ) = 3 from rfl, b3]; norm_num [magnitudeSquared]
  have hsb : ∀ j, 0 ≤ j → j < 4 →
      magnitudeSquared (mandelOrbitB tpZero (1/2, 1/2) 2 false (0, 0) (j + 1)) ≤ 4 := by
    intro j _ hj
    interval_cases j
    · rw [show (0 + 1 : ℕ) = 1 from rfl, s1]; norm_num [magnitudeSquared]
    · rw [show (1 + 1 : ℕ) = 2 from rfl, s2]; norm_num [magnitudeSquared]
    · rw [show (2 + 1 : ℕ) = 3 from rfl, s3]; norm_num [magnitudeSquared]
    · rw [show (3 + 1 : ℕ) = 4 from rfl, s4]; norm_num [magnitudeSquared]
  have hb : mandelbrotIteration tpZero (1/2, 1/2) 100 2 true false (0, 0) = 3 := by
    have := mandelLoop_first_escape tpZero (1/2, 1/2) 2 true (0, 0) 3 hbe 100 0
      (by omega) (by omega) hbb
    simpa [mandelbrotIteration, mandelOrbitB] using this
  have hs : mandelbrotIteration tpZero (1/2, 1/2) 100 2 false false (0, 0) = 4 := by
    have := mandelLoop_first_escape tpZero (1/2, 1/2) 2 false (0, 0) 4 hse 100 0
      (by omega) (by omega) hsb
    simpa [mandelbrotIteration, mandelOrbitB] using this
  refine ⟨hb, hs, ?_⟩
  rw [hb, hs]
  omega

/-! ## Fragment-shader main loops (native and double-double paths) -/

/-- `complexMul` from the fragment shader. -/
def complexMul (a b : ℚ × ℚ) : ℚ × ℚ :=
  (a.1 * b.1 - a.2 * b.2, a.1 * b.2 + a.2 * b.1)

/-- `complexPower` from the fragment shader (quadratic fast path within
tolerance `0.01` of 2, otherwise polar form; unlike the host-side version
there is no zero-radius guard). -/
def complexPowerS (tp : TransPrims) (z : ℚ × ℚ) (n : ℚ) : ℚ × ℚ :=
  if |n - 2| < 1/100 then
    (z.1 * z.1 - z.2 * z.2, 2 * z.1 * z.2)
  else
    let r := tp.sqrtQ (z.1 * z.1 + z.2 * z.2)
    let theta := tp.atan2Q z.2 z.1
    let newR := tp.powQ r n
    let newTheta := n * theta
    (newR * tp.cosQ newTheta, newR * tp.sinQ newTheta)

/-- Per-pixel state of the shader's double-double (deep-zoom) loop.
`steps` counts executions of the loop body past the early-exit check. -/
structure DDState where
  zx : ℚ × ℚ
  zy : ℚ × ℚ
  z : ℚ × ℚ
  dz : ℚ × ℚ
  minDist : ℚ
  minDistCross : ℚ
  iterations : ℚ
  escaped : Bool
  steps : ℕ
  deriving Repr

/-- Initial per-pixel state of the double-double path:
`iterations = 0`, `minDist = minDistCross = 1000`, `dz = (1, 0)`,
`zxDD = zyDD = (0, 0)`. -/
def ddInit : DDState :=
  ⟨(0, 0), (0, 0), (0, 0), (1, 0), 1000, 1000, 0, false, 0⟩

/-- One body of the shader's double-double loop at index `i`:
`ddComplexSquare`, add `c`, convert to single floats for the orbit-trap
and escape logic; on escape the smoothed count uses `log(2.0)`.  The
derivative accumulator `dz` is not mentioned anywhere in this body. -/
def ddStep (tp : TransPrims) (cx cy : ℚ × ℚ) (i : ℕ) (s : DDState) : DDState :=
  let sq := ddComplexSquare s.zx s.zy
  let zx1 := ddAdd sq.1 cx
  let zy1 := ddAdd sq.2 cy
  let z1 : ℚ × ℚ := (zx1.1, zy1.1)
  let distToOrigin := tp.sqrtQ (z1.1 * z1.1 + z1.2 * z1.2)
  let minDist1 := min s.minDist distToOrigin
  let minDistCross1 := min s.minDistCross (min |z1.1| |z1.2|)
  let magSq := z1.1 * z1.1 + z1.2 * z1.2
  if 256 < magSq then
    { s with zx := zx1, zy := zy1, z := z1, minDist := minDist1,
             minDistCross := minDistCross1,
             iterations := (i : ℚ) + 1 -
               tp.logQ (tp.logQ magSq / 2 / tp.logQ 2) / tp.logQ 2,
             escaped := true, steps := s.steps + 1 }
  else
    { s with zx := zx1, zy := zy1, z := z1, minDist := minDist1,
             minDistCross := minDistCross1, iterations := (i : ℚ),
             steps := s.steps + 1 }

/-- The double-double loop driver: pass `n` first honours an earlier
escape break, then the early-exit check `float(i) >= u_maxIter`, then runs
the body; the structural loop bound is applied by the caller
(`i < 2000`). -/
def ddRun (tp : TransPrims) (cx cy : ℚ × ℚ) (maxIter : ℚ) : ℕ → DDState
  | 0 => ddInit
  | n + 1 =>
    let s := ddRun tp cx cy maxIter n
    if s.escaped then s
    else if (n : ℚ) ≥ maxIter then s
    else ddStep tp cx cy n s

/-- The distance-estimate computation after the loops:
`distance = log(zMag²)·zMag/dzMag·0.5` when `dzMag > 0` and the point
escaped, else 0. -/
def ddDistance (tp : TransPrims) (maxIter : ℚ) (s : DDState) : ℚ :=
  let zMag := tp.sqrtQ (s.z.1 * s.z.1 + s.z.2 * s.z.2)
  let dzMag := tp.sqrtQ (s.dz.1 * s.dz.1 + s.dz.2 * s.dz.2)
  if 0 < dzMag ∧ s.iterations < maxIter - 1/2 then
    tp.logQ (zMag * zMag) * zMag / dzMag * (1/2)
  else 0

/-- Per-pixel state of the shader's native-precision loop. -/
structure NativeState where
  z : ℚ × ℚ
  dz : ℚ × ℚ
  minDist : ℚ
  minDistCross : ℚ
  iterations : ℚ
  escaped : Bool
  steps : ℕ
  deriving Repr

/-- Initial per-pixel state of the native path (`z = c` in Julia mode,
else `z = 0`; `dz = (1, 0)`). -/
def nativeInit (c juliaC : ℚ × ℚ) (julia : Bool) : NativeState :=
  ⟨if julia then c else (0, 0), (1, 0), 1000, 1000, 0, false, 0⟩

/-- One body of the shader's native loop at index `i`: Burning-Ship
absolute values, derivative update (`dz = 2·z·dz + 1` in the power-2 fast
path, chain rule otherwise), `z = z^power + c`, orbit traps, escape test
with the smoothed count `float(i) + 1.0 - nu` where
`nu = log(log_zn / log(2.0)) / log(u_power)` — the inner normalization
divides by `log(2.0)`, the outer division by `log(u_power)`. -/
def nativeStep (tp : TransPrims) (konst : ℚ × ℚ) (power : ℚ) (burn : Bool)
    (i : ℕ) (s : NativeState) : NativeState :=
  let z1 := if burn then (|s.z.1|, |s.z.2|) else s.z
  let dz1 := if |power - 2| < 1/100 then
      let w := complexMul z1 s.dz
      ((2 : ℚ) * w.1 + 1, 2 * w.2)
    else
      let w := complexMul (complexPowerS tp z1 (power - 1)) s.dz
      (power * w.1 + 1, power * w.2)
  let z2 := complexAdd (complexPowerS tp z1 power) konst
  let distToOrigin := tp.sqrtQ (z2.1 * z2.1 + z2.2 * z2.2)
  let minDist1 := min s.minDist distToOrigin
  let minDistCross1 := min s.minDistCross (min |z2.1| |z2.2|)
  let magSq := z2.1 * z2.1 + z2.2 * z2.2
  if 256 < magSq then
    { z := z2, dz := dz1, minDist := minDist1, minDistCross := minDistCross1,
      iterations := (i : ℚ) + 1 -
        tp.logQ (tp.logQ magSq / 2 / tp.logQ 2) / tp.logQ power,
      escaped := true, steps := s.steps + 1 }
  else
    { z := z2, dz := dz1, minDist := minDist1, minDistCross := minDistCross1,
      iterations := (i : ℚ), escaped := false, steps := s.steps + 1 }

/-- The native loop driver, mirroring `ddRun`. -/
def nativeRun (tp : TransPrims) (c juliaC : ℚ × ℚ) (power maxIter : ℚ)
    (julia burn : Bool) : ℕ → NativeState
  | 0 => nativeInit c juliaC julia
  | n + 1 =>
    let s := nativeRun tp c juliaC power maxIter julia burn n
    if s.escaped then s
    else if (n : ℚ) ≥ maxIter then s
    else nativeStep tp (if julia then juliaC else c) power burn n s

/-! ## Theorems for claims C6, C10 -/

/-- Each body execution increments the step counter by exactly one. -/
theorem nativeStep_steps (tp : TransPrims) (konst : ℚ × ℚ) (power : ℚ)
    (burn : Bool) (i : ℕ) (s : NativeState) :
    (nativeStep tp konst power burn i s).steps = s.steps + 1 := by
  simp only [nativeStep]
  split <;> split <;> rfl

/-- Each body execution of the double-double loop increments the step
counter by exactly one. -/
theorem ddStep_steps (tp : TransPrims) (cx cy : ℚ × ℚ) (i : ℕ) (s : DDState) :
    (ddStep tp cx cy i s).steps = s.steps + 1 := by
  simp only [ddStep]
  split <;> rfl

/-- The double-double loop body never writes the derivative accumulator. -/
theorem ddStep_dz (tp : TransPrims) (cx cy : ℚ × ℚ) (i : ℕ) (s : DDState) :
    (ddStep tp cx cy i s).dz = s.dz := by
  simp only [ddStep]
  split <;> rfl

/-- Step-count bound for the native loop: after `n` driver passes with the
iteration-cap uniform set to the natural number `maxIterN`, at most
`min maxIterN n` body executions have happened. -/
theorem nativeRun_steps_le (tp : TransPrims) (c juliaC : ℚ × ℚ)
    (power : ℚ) (julia burn : Bool) (maxIterN : ℕ) :
    ∀ n, (nativeRun tp c juliaC power (maxIterN : ℚ) julia burn n).steps ≤
      min maxIterN n := by
  intro n
  induction n with
  | zero => simp [nativeRun, nativeInit]
  | succ n ih =>
    simp only [nativeRun]
    by_cases hesc : (nativeRun tp c juliaC power (maxIterN : ℚ) julia burn n).escaped
    · rw [if_pos hesc]
      omega
    · rw [if_neg hesc]
      by_cases hidx : ((n : ℚ) ≥ (maxIterN : ℚ))
      · rw [if_pos hidx]
        omega
      · rw [if_neg hidx]
        have hlt : n < maxIterN := by
          have : (n : ℚ) < (maxIterN : ℚ) := lt_of_not_ge hidx
          exact_mod_cast this
        rw [nativeStep_steps]
        omega

/-- Step-count bound for the double-double loop, same statement. -/
theorem ddRun_steps_le (tp : TransPrims) (cx cy : ℚ × ℚ) (maxIterN : ℕ) :
    ∀ n, (ddRun tp cx cy (maxIterN : ℚ) n).steps ≤ min maxIterN n := by
  intro n
  induction n with
  | zero => simp [ddRun, ddInit]
  | succ n ih =>
    simp only [ddRun]
    by_cases hesc : (ddRun tp cx cy (maxIterN : ℚ) n).escaped
    · rw [if_pos hesc]
      omega
    · rw [if_neg hesc]
      by_cases hidx : ((n : ℚ) ≥ (maxIterN : ℚ))
      · rw [if_pos hidx]
        omega
      · rw [if_neg hidx]
        have hlt : n < maxIterN := by
          have : (n : ℚ) < (maxIterN : ℚ) := lt_of_not_ge hidx
          exact_mod_cast this
        rw [ddStep_steps]
        omega

/-- C6 amended: for every configured `maxIterations` in `[10, 10000]`,
both per-pixel loops terminate after at most `min(maxIterations, 2000)`
body executions: the early-exit check enforces the cap only when
`maxIterations ≤ 2000`; beyond that the structural bound of 2000 passes
binds first. -/
theorem iteration_steps_bounded (tp : TransPrims) (c juliaC cx cy : ℚ × ℚ)
    (power : ℚ) (julia burn : Bool) (maxIterN : ℕ)
    (h1 : 10 ≤ maxIterN) (h2 : maxIterN ≤ 10000) :
    (nativeRun tp c juliaC power (maxIterN : ℚ) julia burn 2000).steps ≤
        min maxIterN 2000 ∧
      (ddRun tp cx cy (maxIterN : ℚ) 2000).steps ≤ min maxIterN 2000 :=
  ⟨nativeRun_steps_le tp c juliaC power julia burn maxIterN 2000,
    ddRun_steps_le tp cx cy maxIterN 2000⟩

/-- C6 witness: the bound applied at `maxIterations = 10` with all other
inputs concrete. -/
theorem iteration_steps_bounded_witness :
    (10 ≤ 10 ∧ 10 ≤ 10000) ∧
      ((nativeRun tpZero (0, 0) (0, 0) 2 ((10 : ℕ) : ℚ) false false 2000).steps ≤
          min 10 2000 ∧
        (ddRun tpZero (0, 0) (0, 0) ((10 : ℕ) : ℚ) 2000).steps ≤ min 10 2000) :=
  ⟨⟨by norm_num, by norm_num⟩,
    iteration_steps_bounded tpZero (0, 0) (0, 0) (0, 0) (0, 0) 2 false false 10
      (by norm_num) (by norm_num)⟩

/-- Closed form of the native loop's state at `c = (0, 0)`, power 2, cap
uniform 5000: the orbit stays at the origin, never escapes, and the loop
body runs once per pass. -/
def natOriginState : ℕ → NativeState
  | 0 => nativeInit (0, 0) (0, 0) false
  | n + 1 => ⟨(0, 0), (1, 0), 0, 0, (n : ℚ), false, n + 1⟩

/-- The origin pixel never escapes, so with the cap uniform at 5000 the
first 2000 driver passes each execute the body once. -/
theorem nativeRun_origin_5000 :
    ∀ n, n ≤ 2000 →
      nativeRun tpZero (0, 0) (0, 0) 2 5000 false false n = natOriginState n := by
  intro n
  induction n with
  | zero => intro _; rfl
  | succ n ih =>
    intro hn
    have hrec := ih (by omega)
    have hesc : (natOriginState n).escaped = false := by
      cases n <;> rfl
    have hidx : ¬((n : ℚ) ≥ 5000) := by
      have h5 : (n : ℚ) < 5000 := by
        have : n < 5000 := by omega
        exact_mod_cast this
      exact not_le.mpr h5
    simp only [nativeRun, hrec, hesc, Bool.false_eq_true, if_false, if_neg hidx]
    cases n with
    | zero =>
      norm_num [nativeStep, natOriginState, nativeInit, complexMul,
        complexPowerS, complexAdd, tpZero]
    | succ m =>
      norm_num [nativeStep, natOriginState, nativeInit, complexMul,
        complexPowerS, complexAdd, tpZero]

/-- C6 counterexample: with `maxIterations = 5000` (inside the validated
range `[10, 10000]`) and the non-escaping pixel `c = (0, 0)`, the native
loop stops after exactly 2000 body executions — the structural bound, not
the early-exit check against the configured maximum (which never fires,
since the loop index never reaches 5000). -/
theorem structural_bound_preempts_early_exit :
    (nativeRun tpZero (0, 0) (0, 0) 2 5000 false false 2000).steps = 2000 ∧
      (2000 : ℕ) ≠ 5000 := by
  constructor
  · rw [nativeRun_origin_5000 2000 le_rfl]
    norm_num [natOriginState]
  · omega

/-- C10: throughout the double-double (deep-zoom) path the derivative
accumulator `dz` keeps its initial value `(1, 0)` — the loop body never
writes it — so the distance estimate for any pixel rendered through that
path is computed with `dzMag = sqrt(1)` rather than from the chain-rule
recurrence of the native path. -/
theorem ddPath_dz_constant (tp : TransPrims) (cx cy : ℚ × ℚ) (maxIter : ℚ)
    (n : ℕ) :
    (ddRun tp cx cy maxIter n).dz = (1, 0) ∧
      ddDistance tp maxIter (ddRun tp cx cy maxIter n) =
        (if 0 < tp.sqrtQ 1 ∧ (ddRun tp cx cy maxIter n).iterations < maxIter - 1/2 then
          tp.logQ (tp.sqrtQ ((ddRun tp cx cy maxIter n).z.1 * (ddRun tp cx cy maxIter n).z.1 +
              (ddRun tp cx cy maxIter n).z.2 * (ddRun tp cx cy maxIter n).z.2) *
            tp.sqrtQ ((ddRun tp cx cy maxIter n).z.1 * (ddRun tp cx cy maxIter n).z.1 +
              (ddRun tp cx cy maxIter n).z.2 * (ddRun tp cx cy maxIter n).z.2)) *
            tp.sqrtQ ((ddRun tp cx cy maxIter n).z.1 * (ddRun tp cx cy maxIter n).z.1 +
              (ddRun tp cx cy maxIter n).z.2 * (ddRun tp cx cy maxIter n).z.2) /
            tp.sqrtQ 1 * (1/2)
        else 0) := by
  have hdz : (ddRun tp cx cy maxIter n).dz = (1, 0) := by
    induction n with
    | zero => rfl
    | succ n ih =>
      simp only [ddRun]
      by_cases hesc : (ddRun tp cx cy maxIter n).escaped
      · rwa [if_pos hesc]
      · rw [if_neg hesc]
        by_cases hidx : ((n : ℚ) ≥ maxIter)
        · rwa [if_pos hidx]
        · rw [if_neg hidx, ddStep_dz]
          exact ih
  refine ⟨hdz, ?_⟩
  simp only [ddDistance, hdz]
  norm_num

/-! ## Claim C5: the smoothed escape count, host helper vs shader native path -/

/-- The `z`-sequence of the shader's native loop: `z_0` is `c` in Julia
mode, else 0; each step applies the optional Burning-Ship absolute values
and then `z = complexPower(z, u_power) + c` (with the Julia constant when
in Julia mode). -/
def nativeOrbit (tp : TransPrims) (c juliaC : ℚ × ℚ) (power : ℚ)
    (julia burn : Bool) : ℕ → ℚ × ℚ
  | 0 => if julia then c else (0, 0)
  | n + 1 =>
    let z := nativeOrbit tp c juliaC power julia burn n
    let z1 := if burn then (|z.1|, |z.2|) else z
    complexAdd (complexPowerS tp z1 power) (if julia then juliaC else c)

/-- The native loop body always stores the updated `z`, escaping or not. -/
theorem nativeStep_z (tp : TransPrims) (konst : ℚ × ℚ) (power : ℚ)
    (burn : Bool) (i : ℕ) (s : NativeState) :
    (nativeStep tp konst power burn i s).z =
      complexAdd (complexPowerS tp
        (if burn then (|s.z.1|, |s.z.2|) else s.z) power) konst := by
  simp only [nativeStep]
  split <;> split <;> rfl

/-- When the escape test succeeds, the native loop body marks the pixel
escaped and records `float(i) + 1.0 - nu` with
`nu = log(log(|z|²)/2 / log 2) / log(power)` — the shader's inner divisor
is `log(2.0)`, not `log(u_power)`. -/
theorem nativeStep_escape_true (tp : TransPrims) (konst : ℚ × ℚ)
    (power : ℚ) (burn : Bool) (i : ℕ) (s : NativeState)
    (h : 256 < magnitudeSquared (complexAdd (complexPowerS tp
      (if burn then (|s.z.1|, |s.z.2|) else s.z) power) konst)) :
    (nativeStep tp konst power burn i s).escaped = true ∧
      (nativeStep tp konst power burn i s).iterations =
        (i : ℚ) + 1 - tp.logQ (tp.logQ (magnitudeSquared (complexAdd
          (complexPowerS tp (if burn then (|s.z.1|, |s.z.2|) else s.z) power)
            konst)) / 2 / tp.logQ 2) / tp.logQ power := by
  simp only [magnitudeSquared] at h
  simp only [nativeStep, magnitudeSquared]
  rw [if_pos h]
  exact ⟨rfl, rfl⟩

/-- When the escape test fails, the native loop body leaves the pixel
unescaped. -/
theorem nativeStep_escape_false (tp : TransPrims) (konst : ℚ × ℚ)
    (power : ℚ) (burn : Bool) (i : ℕ) (s : NativeState)
    (h : ¬(256 < magnitudeSquared (complexAdd (complexPowerS tp
      (if burn then (|s.z.1|, |s.z.2|) else s.z) power) konst))) :
    (nativeStep tp konst power burn i s).escaped = false := by
  simp only [magnitudeSquared] at h
  simp only [nativeStep]
  rw [if_neg h]

/-- Before the first escape index `i` (and below the cap), the native
driver tracks the orbit and stays unescaped. -/
theorem nativeRun_pre_escape (tp : TransPrims) (c juliaC : ℚ × ℚ)
    (power maxIter : ℚ) (julia burn : Bool) (i : ℕ)
    (himax : (i : ℚ) < maxIter)
    (hbefore : ∀ j, j < i →
      magnitudeSquared (nativeOrbit tp c juliaC power julia burn (j + 1)) ≤ 256) :
    ∀ k, k ≤ i →
      (nativeRun tp c juliaC power maxIter julia burn k).z =
          nativeOrbit tp c juliaC power julia burn k ∧
        (nativeRun tp c juliaC power maxIter julia burn k).escaped = false := by
  intro k
  induction k with
  | zero => intro _; exact ⟨rfl, rfl⟩
  | succ k ih =>
    intro hk
    obtain ⟨ihz, ihe⟩ := ih (by omega)
    have hidx : ¬((k : ℚ) ≥ maxIter) := by
      have hkQ : (k : ℚ) < (i : ℚ) := by
        have : k < i := by omega
        exact_mod_cast this
      exact not_le.mpr (lt_trans hkQ himax)
    simp only [nativeRun, ihe, Bool.false_eq_true, if_false, if_neg hidx]
    constructor
    · rw [nativeStep_z, ihz]
      simp only [nativeOrbit]
    · apply nativeStep_escape_false
      rw [ihz]
      have h256 := hbefore k (by omega)
      simp only [nativeOrbit] at h256
      exact not_lt.mpr h256

/-- C5 counterexample: at power 3 (allowed range `[1, 12]`), pixel
`c = (300, 0)`, cap uniform 10, the native path escapes on its very first
step with `|z|² = 90000`; instantiating the abstract `log` with the
identity, the shader records `0 + 1 - ((90000/2)/log 2)/log 3 = -7499`,
while the claimed formula `0 + 1 - ((90000/2)/log 3)/log 3` evaluates to
`-4999` — the two differ, refuting the claim as stated for the cited
shader escape block (with the real `Math.log` the two likewise differ,
since `log 2 ≠ log 3`). -/
theorem nativePath_smooth_divisor_cex :
    (nativeRun tpId (300, 0) (0, 0) 3 10 false false 1).escaped = true ∧
      magnitudeSquared ((nativeRun tpId (300, 0) (0, 0) 3 10 false false 1).z) = 90000 ∧
      (nativeRun tpId (300, 0) (0, 0) 3 10 false false 1).iterations = -7499 ∧
      (0 : ℚ) + 1 - tpId.logQ (tpId.logQ 90000 / 2 / tpId.logQ 3) / tpId.logQ 3 = -4999 ∧
      ((-7499 : ℚ) ≠ -4999) := by
  refine ⟨?_, ?_, ?_, ?_, by norm_num⟩ <;>
    norm_num [nativeRun, nativeInit, nativeStep, complexPowerS, complexMul,
      complexAdd, tpId, magnitudeSquared]

/-- C5 amended: whenever the escape test `|z|² > 256` first succeeds at
iteration `i` below the cap, the host-side `smoothIteration` returns the
claimed count `i + 1 - log(log(|z|²)/2 / log(power)) / log(power)` for
every power in `[1, 12]`, while the shader's native path instead records
`i + 1 - log(log(|z|²)/2 / log 2) / log(power)` — its inner normalization
divides by `log(2.0)` — which coincides with the claimed formula only at
power 2. -/
theorem smooth_escape_formula_amended (tp : TransPrims) (c cs juliaC : ℚ × ℚ)
    (power maxIter : ℚ) (julia burn : Bool) (maxIterN i j : ℕ)
    (hp1 : 1 ≤ power) (hp2 : power ≤ 12)
    (hi : i < maxIterN)
    (hesc : 256 < magnitudeSquared (mandelOrbit tp c power (i + 1)))
    (hbefore : ∀ k, k < i → magnitudeSquared (mandelOrbit tp c power (k + 1)) ≤ 256)
    (hjmax : (j : ℚ) < maxIter)
    (hescS : 256 < magnitudeSquared (nativeOrbit tp cs juliaC power julia burn (j + 1)))
    (hbeforeS : ∀ k, k < j →
      magnitudeSquared (nativeOrbit tp cs juliaC power julia burn (k + 1)) ≤ 256) :
    smoothIteration tp c maxIterN power =
        (i : ℚ) + 1 -
          tp.logQ (tp.logQ (magnitudeSquared (mandelOrbit tp c power (i + 1))) / 2 /
            tp.logQ power) / tp.logQ power ∧
      (nativeRun tp cs juliaC power maxIter julia burn (j + 1)).escaped = true ∧
      (nativeRun tp cs juliaC power maxIter julia burn (j + 1)).iterations =
        (j : ℚ) + 1 -
          tp.logQ (tp.logQ (magnitudeSquared
            (nativeOrbit tp cs juliaC power julia burn (j + 1))) / 2 /
            tp.logQ 2) / tp.logQ power := by
  have hidx : ¬((j : ℚ) ≥ maxIter) := not_le.mpr hjmax
  obtain ⟨hz, he⟩ := nativeRun_pre_escape tp cs juliaC power maxIter julia burn j
    hjmax hbeforeS j le_rfl
  have hcond : 256 < magnitudeSquared (complexAdd (complexPowerS tp
      (if burn then (|(nativeRun tp cs juliaC power maxIter julia burn j).z.1|,
        |(nativeRun tp cs juliaC power maxIter julia burn j).z.2|)
      else (nativeRun tp cs juliaC power maxIter julia burn j).z) power)
      (if julia then juliaC else cs)) := by
    rw [hz]
    simpa only [nativeOrbit] using hescS
  have hstep := nativeStep_escape_true tp (if julia then juliaC else cs) power burn j
    (nativeRun tp cs juliaC power maxIter julia burn j) hcond
  refine ⟨smoothIteration_first_escape tp c maxIterN i power hi hesc hbefore, ?_, ?_⟩
  · simp only [nativeRun, he, Bool.false_eq_true, if_false, if_neg hidx]
    exact hstep.1
  · simp only [nativeRun, he, Bool.false_eq_true, if_false, if_neg hidx]
    rw [hstep.2, hz]
    simp only [nativeOrbit]

/-- C5 witness: at `c = (3, 0)`, power 2, host cap 100 and shader cap
uniform 100, both the host helper and the shader loop first escape at
`i = j = 2` with `|z_3|² = 21609`, and the amended formulas (which agree
at power 2) are produced. -/
theorem smooth_escape_formula_amended_witness :
    ((1 : ℚ) ≤ 2 ∧ (2 : ℚ) ≤ 12 ∧ 2 < 100 ∧
      (256 : ℚ) < magnitudeSquared (mandelOrbit tpId (3, 0) 2 3) ∧
      (∀ k, k < 2 → magnitudeSquared (mandelOrbit tpId (3, 0) 2 (k + 1)) ≤ 256) ∧
      ((2 : ℕ) : ℚ) < 100 ∧
      (256 : ℚ) < magnitudeSquared (nativeOrbit tpId (3, 0) (0, 0) 2 false false 3) ∧
      (∀ k, k < 2 →
        magnitudeSquared (nativeOrbit tpId (3, 0) (0, 0) 2 false false (k + 1)) ≤ 256)) ∧
      (smoothIteration tpId (3, 0) 100 2 =
          (2 : ℚ) + 1 -
            tpId.logQ (tpId.logQ (magnitudeSquared (mandelOrbit tpId (3, 0) 2 3)) / 2 /
              tpId.logQ 2) / tpId.logQ 2 ∧
        (nativeRun tpId (3, 0) (0, 0) 2 100 false false 3).escaped = true ∧
        (nativeRun tpId (3, 0) (0, 0) 2 100 false false 3).iterations =
          (2 : ℚ) + 1 -
            tpId.logQ (tpId.logQ (magnitudeSquared
              (nativeOrbit tpId (3, 0) (0, 0) 2 false false 3)) / 2 /
              tpId.logQ 2) / tpId.logQ 2) := by
  have m1 : mandelOrbit tpId (3, 0) 2 1 = (3, 0) := by
    norm_num [mandelOrbit, complexPower, complexAdd]
  have m2 : mandelOrbit tpId (3, 0) 2 2 = (12, 0) := by
    norm_num [mandelOrbit, complexPower, complexAdd]
  have m3 : mandelOrbit tpId (3, 0) 2 3 = (147, 0) := by
    norm_num [mandelOrbit, complexPower, complexAdd]
  have hescM : (256 : ℚ) < magnitudeSquared (mandelOrbit tpId (3, 0) 2 3) := by
    rw [m3]; norm_num [magnitudeSquared]
  have hbeforeM : ∀ k, k < 2 → magnitudeSquared (mandelOrbit tpId (3, 0) 2 (k + 1)) ≤ 256 := by
    intro k hk
    interval_cases k
    · rw [show (0 + 1 : ℕ) = 1 from rfl, m1]; norm_num [magnitudeSquared]
    · rw [show (1 + 1 : ℕ) = 2 from rfl, m2]; norm_num [magnitudeSquared]
  have n1 : nativeOrbit tpId (3, 0) (0, 0) 2 false false 1 = (3, 0) := by
    norm_num [nativeOrbit, complexPowerS, complexAdd]
  have n2 : nativeOrbit tpId (3, 0) (0, 0) 2 false false 2 = (12, 0) := by
    norm_num [nativeOrbit, complexPowerS, complexAdd]
  have n3 : nativeOrbit tpId (3, 0) (0, 0) 2 false false 3 = (147, 0) := by
    norm_num [nativeOrbit, complexPowerS, complexAdd]
  have hescN : (256 : ℚ) < magnitudeSquared (nativeOrbit tpId (3, 0) (0, 0) 2 false false 3) := by
    rw [n3]; norm_num [magnitudeSquared]
  have hbeforeN : ∀ k, k < 2 →
      magnitudeSquared (nativeOrbit tpId (3, 0) (0, 0) 2 false false (k + 1)) ≤ 256 := by
    intro k hk
    interval_cases k
    · rw [show (0 + 1 : ℕ) = 1 from rfl, n1]; norm_num [magnitudeSquared]
    · rw [show (1 + 1 : ℕ) = 2 from rfl, n2]; norm_num [magnitudeSquared]
  exact ⟨⟨by norm_num, by norm_num, by norm_num, hescM, hbeforeM, by norm_num,
      hescN, hbeforeN⟩,
    smooth_escape_formula_amended tpId (3, 0) (3, 0) (0, 0) 2 100 false false 100 2 2
      (by norm_num) (by norm_num) (by norm_num) hescM hbeforeM (by norm_num)
      hescN hbeforeN⟩
